import Mathlib

/-
Verification of the yahoo-ruby-mcp server (src/index.ts, full version with
chunking as embedded in the repository README).

JavaScript strings are sequences of UTF-16 code units; we model them as
`List Nat`.  `TextEncoder.encode` encodes a well-formed surrogate pair as the
4-byte UTF-8 encoding of the paired code point and replaces every unpaired
surrogate with U+FFFD (bytes EF BF BD); `utf8Bytes` below implements exactly
that, so `utf8Len` is the byte count `encoder.encode(s).length` used by the
source.  `String.prototype.slice` / `.length` work on code units and are
modelled by `List.take` / `List.drop` / `List.length`.
-/

set_option maxRecDepth 20000

namespace YahooRuby

/-- The constant `MAX_CHUNK_SIZE = 3000` from the source
("Maximum text size per request (in bytes) - leaving room for JSON overhead"). -/
def MAX_CHUNK_SIZE : Nat := 3000

/-- A UTF-16 code unit in the high-surrogate range 0xD800-0xDBFF. -/
def isHighSurrogate (c : Nat) : Bool := 0xD800 ≤ c && c ≤ 0xDBFF

/-- A UTF-16 code unit in the low-surrogate range 0xDC00-0xDFFF. -/
def isLowSurrogate (c : Nat) : Bool := 0xDC00 ≤ c && c ≤ 0xDFFF

/-- Any surrogate code unit. -/
def isSurrogate (c : Nat) : Bool := isHighSurrogate c || isLowSurrogate c

/-- UTF-8 bytes of a scalar value in the BMP (1, 2 or 3 bytes). -/
def cuBytes (c : Nat) : List Nat :=
  if c < 0x80 then [c]
  else if c < 0x800 then [0xC0 + c / 0x40, 0x80 + c % 0x40]
  else [0xE0 + c / 0x1000, 0x80 + c / 0x40 % 0x40, 0x80 + c % 0x40]

/-- UTF-8 bytes (4 bytes) of the code point formed by a surrogate pair. -/
def pairBytes (hi lo : Nat) : List Nat :=
  [0xF0 + (0x10000 + (hi - 0xD800) * 0x400 + (lo - 0xDC00)) / 0x40000,
   0x80 + (0x10000 + (hi - 0xD800) * 0x400 + (lo - 0xDC00)) / 0x1000 % 0x40,
   0x80 + (0x10000 + (hi - 0xD800) * 0x400 + (lo - 0xDC00)) / 0x40 % 0x40,
   0x80 + (0x10000 + (hi - 0xD800) * 0x400 + (lo - 0xDC00)) % 0x40]

/-- UTF-8 encoding of U+FFFD REPLACEMENT CHARACTER, emitted by `TextEncoder`
for every unpaired surrogate. -/
def replacementBytes : List Nat := [0xEF, 0xBF, 0xBD]

/-- The byte sequence produced by `new TextEncoder().encode(s)` for a
JavaScript string `s` (list of UTF-16 code units). -/
def utf8Bytes : List Nat → List Nat
  | [] => []
  | [c] => if isSurrogate c then replacementBytes else cuBytes c
  | c :: c2 :: rest =>
    if isHighSurrogate c then
      if isLowSurrogate c2 then pairBytes c c2 ++ utf8Bytes rest
      else replacementBytes ++ utf8Bytes (c2 :: rest)
    else if isLowSurrogate c then replacementBytes ++ utf8Bytes (c2 :: rest)
    else cuBytes c ++ utf8Bytes (c2 :: rest)

/-- `encoder.encode(s).length`: the encoded byte length used throughout
`splitTextIntoChunks`. -/
def utf8Len (l : List Nat) : Nat := (utf8Bytes l).length

/-- The sentence boundary markers of the regex `[。．！？\n]`
(U+3002, U+FF0E, U+FF01, U+FF1F, LF). -/
def isSentenceBoundary (c : Nat) : Bool :=
  c == 0x3002 || c == 0xFF0E || c == 0xFF01 || c == 0xFF1F || c == 0x000A

/-- Worker for `text.split(/(?<=[。．！？\n])/)`: accumulates the current
unit in reverse; a new unit starts right after each boundary marker, and
no empty trailing unit is produced (the empty-width regex match is never
attempted at the end-of-string position). -/
def sentSplitGo : List Nat → List Nat → List (List Nat)
  | acc, [] => if acc = [] then [] else [acc.reverse]
  | acc, c :: rest =>
    if isSentenceBoundary c then (c :: acc).reverse :: sentSplitGo [] rest
    else sentSplitGo (c :: acc) rest

/-- `text.split(/(?<=[。．！？\n])/)`; on the empty string, JavaScript
`split` returns `[""]`. -/
def sentenceSplit (t : List Nat) : List (List Nat) :=
  if t = [] then [[]] else sentSplitGo [] t

/-- The halving loop
`while (encoder.encode(remaining.slice(0, end)).length > MAX_CHUNK_SIZE && end > 1) end = Math.floor(end / 2)`.
`e` strictly decreases while the guard holds, so a fuel equal to the initial
`e` (provided by `halveEnd`) is never exhausted before the guard fails. -/
def halveGo (r : List Nat) : Nat → Nat → Nat
  | 0, e => e
  | fuel + 1, e =>
    if MAX_CHUNK_SIZE < utf8Len (r.take e) ∧ 1 < e then halveGo r fuel (e / 2)
    else e

/-- Result of the halving loop started at `end = e`. -/
def halveEnd (r : List Nat) (e : Nat) : Nat := halveGo r e e

/-- The greedy extension loop
`while (end < remaining.length && encoder.encode(remaining.slice(0, end + 1)).length <= MAX_CHUNK_SIZE) end++`.
Each iteration has `e < r.length` and increments `e`, so the fuel
`r.length - e` (provided by `extendEnd`) runs out exactly when the first
guard fails. -/
def extendGo (r : List Nat) : Nat → Nat → Nat
  | 0, e => e
  | fuel + 1, e =>
    if e < r.length ∧ utf8Len (r.take (e + 1)) ≤ MAX_CHUNK_SIZE then
      extendGo r fuel (e + 1)
    else e

/-- Result of the greedy extension loop started at `end = e`. -/
def extendEnd (r : List Nat) (e : Nat) : Nat := extendGo r (r.length - e) e

/-- The character-level bisection loop `while (remaining) { ... }`:
each iteration emits `remaining.slice(0, end)` and continues on
`remaining.slice(end)` with `end ≥ 1`, so the remainder loses at least one
code unit per iteration and a fuel equal to `remaining.length` (provided by
`bisect`) is never exhausted while the remainder is non-empty. -/
def bisectGo : Nat → List Nat → List (List Nat)
  | 0, _ => []
  | fuel + 1, r =>
    if r = [] then []
    else
      r.take (extendEnd r (halveEnd r r.length)) ::
        bisectGo fuel (r.drop (extendEnd r (halveEnd r r.length)))

/-- The whole character-level fallback applied to one oversized sentence. -/
def bisect (r : List Nat) : List (List Nat) := bisectGo r.length r

/-- The `for (const sentence of sentences)` loop of `splitTextIntoChunks`,
with the final `if (currentChunk) chunks.push(currentChunk)` flush.
`cur` is `currentChunk`; chunks are returned in emission order. -/
def splitLoop : List Nat → List (List Nat) → List (List Nat)
  | cur, [] => if cur = [] then [] else [cur]
  | cur, s :: rest =>
    if MAX_CHUNK_SIZE < utf8Len (cur ++ s) then
      if cur = [] then bisect s ++ splitLoop [] rest
      else cur :: splitLoop s rest
    else splitLoop (cur ++ s) rest

/-- `splitTextIntoChunks` from the source: return `[text]` when the encoded
size fits, otherwise split at sentence boundaries, greedily accumulate, and
fall back to character-level bisection for a single oversized sentence. -/
def splitTextIntoChunks (t : List Nat) : List (List Nat) :=
  if utf8Len t ≤ MAX_CHUNK_SIZE then [t]
  else splitLoop [] (sentenceSplit t)

/-! ### Round-trip of the sentence split and of the chunking -/

theorem sentSplitGo_flatten (l : List Nat) :
    ∀ acc, (sentSplitGo acc l).flatten = acc.reverse ++ l := by
  induction l with
  | nil =>
    intro acc
    by_cases h : acc = [] <;> simp [sentSplitGo, h]
  | cons c rest ih =>
    intro acc
    by_cases h : isSentenceBoundary c = true <;>
      simp [sentSplitGo, h, ih]

theorem sentenceSplit_flatten (t : List Nat) :
    (sentenceSplit t).flatten = t := by
  by_cases h : t = []
  · simp [sentenceSplit, h]
  · simp [sentenceSplit, h, sentSplitGo_flatten]

theorem halveGo_pos (r : List Nat) :
    ∀ fuel e, 1 ≤ e → 1 ≤ halveGo r fuel e := by
  intro fuel
  induction fuel with
  | zero => intro e he; simpa [halveGo] using he
  | succ f ih =>
    intro e he
    rw [halveGo]
    split
    · next h => exact ih (e / 2) (by omega)
    · exact he

theorem extendGo_ge (r : List Nat) :
    ∀ fuel e, e ≤ extendGo r fuel e := by
  intro fuel
  induction fuel with
  | zero => intro e; simp [extendGo]
  | succ f ih =>
    intro e
    rw [extendGo]
    split
    · exact Nat.le_trans (Nat.le_succ e) (ih (e + 1))
    · exact Nat.le_refl e

theorem bisect_step_pos (r : List Nat) (h : r ≠ []) :
    1 ≤ extendEnd r (halveEnd r r.length) := by
  have h1 : 1 ≤ r.length := List.length_pos.mpr h
  have h2 : 1 ≤ halveEnd r r.length := halveGo_pos r r.length r.length h1
  exact Nat.le_trans h2 (extendGo_ge r (r.length - halveEnd r r.length) _)

theorem bisectGo_flatten :
    ∀ fuel r, r.length ≤ fuel → (bisectGo fuel r).flatten = r := by
  intro fuel
  induction fuel with
  | zero =>
    intro r hr
    have : r = [] := List.eq_nil_of_length_eq_zero (Nat.le_zero.mp hr)
    simp [bisectGo, this]
  | succ f ih =>
    intro r hr
    by_cases h : r = []
    · simp [bisectGo, h]
    · have hpos : 1 ≤ extendEnd r (halveEnd r r.length) := bisect_step_pos r h
      have hlen : (r.drop (extendEnd r (halveEnd r r.length))).length ≤ f := by
        rw [List.length_drop]
        have : 1 ≤ r.length := List.length_pos.mpr h
        omega
      simp only [bisectGo, h, if_false, List.flatten_cons]
      rw [ih _ hlen, List.take_append_drop]

theorem bisect_flatten (r : List Nat) : (bisect r).flatten = r :=
  bisectGo_flatten r.length r (Nat.le_refl _)

theorem splitLoop_flatten (ss : List (List Nat)) :
    ∀ cur, (splitLoop cur ss).flatten = cur ++ ss.flatten := by
  induction ss with
  | nil =>
    intro cur
    by_cases h : cur = [] <;> simp [splitLoop, h]
  | cons s rest ih =>
    intro cur
    simp only [splitLoop]
    split
    · split
      · next h2 => subst h2; simp [ih, bisect_flatten]
      · simp [ih]
    · simp [ih]

/-- Shared helper: the chunks returned by `splitTextIntoChunks` concatenate,
in order and with no separator, to the original input. -/
theorem splitTextIntoChunks_flatten (t : List Nat) :
    (splitTextIntoChunks t).flatten = t := by
  by_cases h : utf8Len t ≤ MAX_CHUNK_SIZE
  · simp [splitTextIntoChunks, h]
  · simp [splitTextIntoChunks, h, splitLoop_flatten, sentenceSplit_flatten]

/-! ### Non-emptiness of chunks -/

theorem bisectGo_ne_nil :
    ∀ fuel r c, c ∈ bisectGo fuel r → c ≠ [] := by
  intro fuel
  induction fuel with
  | zero => intro r c hc; simp [bisectGo] at hc
  | succ f ih =>
    intro r c hc
    by_cases h : r = []
    · simp [bisectGo, h] at hc
    · simp only [bisectGo, h, if_false, List.mem_cons] at hc
      rcases hc with hc | hc
      · subst hc
        intro hnil
        have hpos : 1 ≤ extendEnd r (halveEnd r r.length) := bisect_step_pos r h
        rcases List.take_eq_nil_iff.mp hnil with h0 | h0
        · omega
        · exact h h0
      · exact ih _ _ hc

theorem splitLoop_ne_nil (ss : List (List Nat)) :
    ∀ cur c, c ∈ splitLoop cur ss → c ≠ [] := by
  induction ss with
  | nil =>
    intro cur c hc
    simp only [splitLoop] at hc
    split at hc
    · simp at hc
    · next h =>
      rw [List.mem_singleton] at hc
      subst hc; exact h
  | cons s rest ih =>
    intro cur c hc
    simp only [splitLoop] at hc
    split at hc
    · split at hc
      · rw [List.mem_append] at hc
        rcases hc with hc | hc
        · exact bisectGo_ne_nil _ _ _ hc
        · exact ih _ _ hc
      · next h2 =>
        rw [List.mem_cons] at hc
        rcases hc with hc | hc
        · subst hc; exact h2
        · exact ih _ _ hc
    · exact ih _ _ hc

/-! ### UTF-8 encoding of surrogate-free strings -/

theorem utf8Bytes_cons_clean (c : Nat) (l : List Nat) (h : isSurrogate c = false) :
    utf8Bytes (c :: l) = cuBytes c ++ utf8Bytes l := by
  have h1 : isHighSurrogate c = false := by
    unfold isSurrogate at h
    exact (Bool.or_eq_false_iff.mp h).1
  have h2 : isLowSurrogate c = false := by
    unfold isSurrogate at h
    exact (Bool.or_eq_false_iff.mp h).2
  cases l with
  | nil => simp [utf8Bytes, h]
  | cons c2 rest => simp [utf8Bytes, h1, h2]

theorem utf8Bytes_append_clean :
    ∀ a b : List Nat, (∀ x ∈ a, isSurrogate x = false) →
      utf8Bytes (a ++ b) = utf8Bytes a ++ utf8Bytes b := by
  intro a
  induction a with
  | nil => intro b _; simp [utf8Bytes]
  | cons c a' ih =>
    intro b h
    rw [List.cons_append, utf8Bytes_cons_clean c (a' ++ b) (h c (List.mem_cons_self c _)),
      utf8Bytes_cons_clean c a' (h c (List.mem_cons_self c _)),
      ih b (fun x hx => h x (List.mem_cons_of_mem c hx)), List.append_assoc]

theorem utf8Len_append_clean (a b : List Nat)
    (h : ∀ x ∈ a, isSurrogate x = false) :
    utf8Len (a ++ b) = utf8Len a + utf8Len b := by
  unfold utf8Len
  rw [utf8Bytes_append_clean a b h, List.length_append]

theorem clean_replicate (c : Nat) (h : isSurrogate c = false) (n : Nat) :
    ∀ x ∈ List.replicate n c, isSurrogate x = false := by
  intro x hx
  rw [List.eq_of_mem_replicate hx]
  exact h

theorem utf8Len_replicate (c : Nat) (h : isSurrogate c = false) :
    ∀ n, utf8Len (List.replicate n c) = n * (cuBytes c).length := by
  intro n
  induction n with
  | zero => simp [utf8Len, utf8Bytes]
  | succ m ih =>
    rw [List.replicate_succ]
    show utf8Len (c :: List.replicate m c) = (m + 1) * (cuBytes c).length
    unfold utf8Len
    rw [utf8Bytes_cons_clean c _ h, List.length_append, Nat.succ_mul]
    unfold utf8Len at ih
    omega

theorem utf8Bytes_flatten_clean :
    ∀ cs : List (List Nat), (∀ c ∈ cs, ∀ x ∈ c, isSurrogate x = false) →
      (cs.map utf8Bytes).flatten = utf8Bytes cs.flatten := by
  intro cs
  induction cs with
  | nil => simp [utf8Bytes]
  | cons c rest ih =>
    intro h
    rw [List.map_cons, List.flatten_cons, List.flatten_cons,
      utf8Bytes_append_clean c rest.flatten (h c (List.mem_cons_self c _)),
      ih (fun d hd x hx => h d (List.mem_cons_of_mem c hd) x hx)]

/-! ### Symbolic evaluation of the sentence split -/

theorem sentSplitGo_no_boundary :
    ∀ l : List Nat, (∀ c ∈ l, isSentenceBoundary c = false) →
      ∀ acc, sentSplitGo acc l =
        if acc = [] ∧ l = [] then [] else [acc.reverse ++ l] := by
  intro l
  induction l with
  | nil =>
    intro _ acc
    by_cases h : acc = [] <;> simp [sentSplitGo, h]
  | cons c rest ih =>
    intro h acc
    have hc : isSentenceBoundary c = false := h c (List.mem_cons_self c _)
    rw [show sentSplitGo acc (c :: rest) =
        (if isSentenceBoundary c = true then (c :: acc).reverse :: sentSplitGo [] rest
         else sentSplitGo (c :: acc) rest) from rfl]
    rw [if_neg (by simp [hc]),
      ih (fun x hx => h x (List.mem_cons_of_mem c hx)) (c :: acc)]
    rw [if_neg (by simp)]
    simp

theorem sentSplitGo_unit (nb : List Nat)
    (hnb : ∀ c ∈ nb, isSentenceBoundary c = false)
    (b : Nat) (hb : isSentenceBoundary b = true) (rest : List Nat) :
    ∀ acc, sentSplitGo acc (nb ++ b :: rest) =
      (acc.reverse ++ nb ++ [b]) :: sentSplitGo [] rest := by
  induction nb with
  | nil =>
    intro acc
    rw [List.nil_append,
      show sentSplitGo acc (b :: rest) =
        (if isSentenceBoundary b = true then (b :: acc).reverse :: sentSplitGo [] rest
         else sentSplitGo (b :: acc) rest) from rfl,
      if_pos hb]
    simp
  | cons c nb' ih =>
    intro acc
    have hc : isSentenceBoundary c = false := hnb c (List.mem_cons_self c _)
    rw [List.cons_append,
      show sentSplitGo acc (c :: (nb' ++ b :: rest)) =
        (if isSentenceBoundary c = true
         then (c :: acc).reverse :: sentSplitGo [] (nb' ++ b :: rest)
         else sentSplitGo (c :: acc) (nb' ++ b :: rest)) from rfl,
      if_neg (by simp [hc]),
      ih (fun x hx => hnb x (List.mem_cons_of_mem c hx)) (c :: acc)]
    simp

/-! ### Step equations for the loops (definitional) -/

theorem splitLoop_nil_eq (cur : List Nat) :
    splitLoop cur [] = if cur = [] then [] else [cur] := rfl

theorem splitLoop_cons_eq (cur s : List Nat) (rest : List (List Nat)) :
    splitLoop cur (s :: rest) =
      if MAX_CHUNK_SIZE < utf8Len (cur ++ s) then
        if cur = [] then bisect s ++ splitLoop [] rest
        else cur :: splitLoop s rest
      else splitLoop (cur ++ s) rest := rfl

theorem halveGo_succ_eq (r : List Nat) (f e : Nat) :
    halveGo r (f + 1) e =
      if MAX_CHUNK_SIZE < utf8Len (r.take e) ∧ 1 < e then halveGo r f (e / 2)
      else e := rfl

theorem extendGo_succ_eq (r : List Nat) (f e : Nat) :
    extendGo r (f + 1) e =
      if e < r.length ∧ utf8Len (r.take (e + 1)) ≤ MAX_CHUNK_SIZE then
        extendGo r f (e + 1)
      else e := rfl

theorem bisectGo_succ_eq (f : Nat) (r : List Nat) :
    bisectGo (f + 1) r =
      if r = [] then []
      else
        r.take (extendEnd r (halveEnd r r.length)) ::
          bisectGo f (r.drop (extendEnd r (halveEnd r r.length))) := rfl

theorem splitLoop_cons_fit (cur s : List Nat) (rest : List (List Nat))
    (h : utf8Len (cur ++ s) ≤ MAX_CHUNK_SIZE) :
    splitLoop cur (s :: rest) = splitLoop (cur ++ s) rest := by
  rw [splitLoop_cons_eq, if_neg (by omega)]

theorem splitLoop_cons_push (cur s : List Nat) (rest : List (List Nat))
    (h : MAX_CHUNK_SIZE < utf8Len (cur ++ s)) (hcur : cur ≠ []) :
    splitLoop cur (s :: rest) = cur :: splitLoop s rest := by
  rw [splitLoop_cons_eq, if_pos h, if_neg hcur]

theorem splitLoop_cons_bisect (s : List Nat) (rest : List (List Nat))
    (h : MAX_CHUNK_SIZE < utf8Len s) :
    splitLoop [] (s :: rest) = bisect s ++ splitLoop [] rest := by
  rw [splitLoop_cons_eq, if_pos (by rwa [List.nil_append]), if_pos rfl]

/-- Fast-forward through `d` successful iterations of the extension loop. -/
theorem extendGo_jump (r : List Nat) :
    ∀ d f e,
      (∀ k, e ≤ k → k < e + d →
        k < r.length ∧ utf8Len (r.take (k + 1)) ≤ MAX_CHUNK_SIZE) →
      extendGo r (f + d) e = extendGo r f (e + d) := by
  intro d
  induction d with
  | zero => intro f e _; rfl
  | succ d ih =>
    intro f e h
    have h0 := h e (Nat.le_refl e) (by omega)
    rw [show f + (d + 1) = (f + d) + 1 from rfl, extendGo_succ_eq, if_pos h0,
      ih f (e + 1) (fun k hk1 hk2 => h k (by omega) (by omega)),
      show e + 1 + d = e + (d + 1) from by omega]

theorem no_boundary_replicate (c : Nat) (h : isSentenceBoundary c = false)
    (n : Nat) : ∀ x ∈ List.replicate n c, isSentenceBoundary x = false := by
  intro x hx
  rw [List.eq_of_mem_replicate hx]
  exact h

/-! ### The input refuting the chunk-size bound (claim C1)

`t1` is the short sentence あ。 followed by a single 4500-byte sentence of
1500 い characters.  The oversized second sentence is assigned to
`currentChunk` after the first chunk is flushed and is later emitted whole:
the character-level fallback only runs when `currentChunk` is empty. -/

def t1 : List Nat := [0x3042, 0x3002] ++ List.replicate 1500 0x3044

theorem utf8Len_rep3044 : utf8Len (List.replicate 1500 0x3044) = 4500 := by
  rw [utf8Len_replicate 0x3044 (by decide) 1500]
  decide

theorem utf8Len_t1 : utf8Len t1 = 4506 := by
  unfold t1
  rw [utf8Len_append_clean _ _ (by decide), utf8Len_rep3044]
  decide

theorem rep3044_ne_nil : List.replicate 1500 0x3044 ≠ [] := by
  intro h
  have := congrArg List.length h
  rw [List.length_replicate] at this
  simp at this

theorem sentenceSplit_t1 :
    sentenceSplit t1 = [[0x3042, 0x3002], List.replicate 1500 0x3044] := by
  unfold sentenceSplit t1
  rw [if_neg (by simp)]
  rw [show ([0x3042, 0x3002] ++ List.replicate 1500 0x3044 : List Nat) =
      [0x3042] ++ 0x3002 :: List.replicate 1500 0x3044 from rfl]
  rw [sentSplitGo_unit [0x3042] (by decide) 0x3002 (by decide) _ []]
  rw [sentSplitGo_no_boundary _ (no_boundary_replicate 0x3044 (by decide) 1500) []]
  rw [if_neg (by simp [rep3044_ne_nil])]
  simp

theorem split_t1 :
    splitTextIntoChunks t1 = [[0x3042, 0x3002], List.replicate 1500 0x3044] := by
  unfold splitTextIntoChunks
  rw [if_neg (by rw [utf8Len_t1]; decide), sentenceSplit_t1]
  rw [splitLoop_cons_fit [] _ _ (by rw [List.nil_append]; decide), List.nil_append]
  rw [splitLoop_cons_push _ _ _
    (by rw [utf8Len_append_clean _ _ (by decide), utf8Len_rep3044]; decide)
    (by decide)]
  rw [splitLoop_nil_eq, if_neg rep3044_ne_nil]

/-- C1: the claim "every chunk is at most `MAX_CHUNK_SIZE` bytes (except a
single oversized character)" is violated by the code: on `t1` (not a single
character), the second returned chunk measures 4500 bytes > 3000, because an
oversized sentence that follows a non-empty buffer is emitted whole without
the character-level fallback. -/
theorem chunkBound_code_bug :
    splitTextIntoChunks t1 = [[0x3042, 0x3002], List.replicate 1500 0x3044] ∧
    MAX_CHUNK_SIZE < utf8Len (List.replicate 1500 0x3044) ∧
    1 < t1.length := by
  refine ⟨split_t1, ?_, ?_⟩
  · rw [utf8Len_rep3044]; decide
  · unfold t1
    rw [List.length_append, List.length_replicate]
    decide

/-- C2: concatenating the chunks returned by `splitTextIntoChunks`, in order
and with no separator, reproduces the input exactly. -/
theorem chunks_concat_roundtrip (t : List Nat) :
    (splitTextIntoChunks t).flatten = t :=
  splitTextIntoChunks_flatten t

/-- C6 counterexample: on the empty input the function returns `[""]`, a
list containing an empty fragment, so "every fragment is non-empty" fails
as stated for every input. -/
theorem empty_text_empty_fragment :
    splitTextIntoChunks [] = [[]] ∧ ([] : List Nat) ∈ splitTextIntoChunks [] := by
  constructor
  · decide
  · decide

/-- C6 amended: for every non-empty input text, every fragment returned by
`splitTextIntoChunks` is a non-empty string. -/
theorem fragments_nonempty (t : List Nat) (h : t ≠ []) :
    ∀ c ∈ splitTextIntoChunks t, c ≠ [] := by
  intro c hc
  unfold splitTextIntoChunks at hc
  split at hc
  · rw [List.mem_singleton] at hc
    subst hc
    exact h
  · exact splitLoop_ne_nil _ _ _ hc

/-- Witness for C6 at the one-character input "a". -/
theorem fragments_nonempty_witness : ([0x61] : List Nat) ≠ [] :=
  fragments_nonempty [0x61] (by decide) [0x61] (by decide)

/-- C7: an input whose encoded size is at most `MAX_CHUNK_SIZE` is returned
unchanged as a single chunk. -/
theorem single_chunk_noop (t : List Nat) (h : utf8Len t ≤ MAX_CHUNK_SIZE) :
    splitTextIntoChunks t = [t] := by
  unfold splitTextIntoChunks
  rw [if_pos h]

/-- Witness for C7 at the one-character input "a". -/
theorem single_chunk_noop_witness : splitTextIntoChunks [0x61] = [[0x61]] :=
  single_chunk_noop [0x61] (by decide)

/-- C10: one round of the character-level fallback always emits a prefix of
at least one code unit (the halving loop keeps `end ≥ 1` and the extension
loop only grows it), so the remaining string strictly shrinks and the
splitting terminates. -/
theorem bisection_progress (r : List Nat) (h : r ≠ []) :
    1 ≤ halveEnd r r.length ∧
    1 ≤ extendEnd r (halveEnd r r.length) ∧
    (r.drop (extendEnd r (halveEnd r r.length))).length < r.length := by
  have h1 : 1 ≤ r.length := List.length_pos.mpr h
  refine ⟨halveGo_pos r r.length r.length h1, bisect_step_pos r h, ?_⟩
  have h2 := bisect_step_pos r h
  rw [List.length_drop]
  omega

/-- Witness for C10 at the one-character input "a". -/
theorem bisection_progress_witness :
    1 ≤ halveEnd [0x61] ([0x61] : List Nat).length ∧
    1 ≤ extendEnd [0x61] (halveEnd [0x61] ([0x61] : List Nat).length) ∧
    (([0x61] : List Nat).drop
      (extendEnd [0x61] (halveEnd [0x61] ([0x61] : List Nat).length))).length <
      ([0x61] : List Nat).length :=
  bisection_progress [0x61] (by decide)

/-! ### The input on which bisection cuts a surrogate pair (claim C8)

`t8` is a single sentence of 999 three-byte あ characters followed by two
astral 😀 characters (surrogate pairs D83D DE00).  The greedy extension
stops at code-unit position 1000, right between the two halves of the first pair:
the emitted chunk ends in an unpaired high surrogate, which `TextEncoder`
encodes as U+FFFD instead of the bytes of the original character. -/

def astralTail : List Nat := [0xD83D, 0xDE00, 0xD83D, 0xDE00]

def t8 : List Nat := List.replicate 999 0x3042 ++ astralTail

theorem t8_length : t8.length = 1003 := by
  unfold t8 astralTail
  rw [List.length_append, List.length_replicate]
  decide

theorem t8_ne_nil : t8 ≠ [] := by
  intro h
  have := congrArg List.length h
  rw [t8_length] at this
  simp at this

theorem utf8Len_rep3042 (m : Nat) :
    utf8Len (List.replicate m 0x3042) = 3 * m := by
  rw [utf8Len_replicate 0x3042 (by decide) m]
  show m * (cuBytes 0x3042).length = 3 * m
  rw [show (cuBytes 0x3042).length = 3 from by decide]
  omega

theorem t8_take_le (m : Nat) (hm : m ≤ 999) :
    t8.take m = List.replicate m 0x3042 := by
  unfold t8
  rw [List.take_append_of_le_length (by rw [List.length_replicate]; exact hm),
    List.take_replicate]
  congr 1
  omega

theorem utf8Len_t8_take_le (m : Nat) (hm : m ≤ 999) :
    utf8Len (t8.take m) = 3 * m := by
  rw [t8_take_le m hm, utf8Len_rep3042]

theorem t8_take_1000 :
    t8.take 1000 = List.replicate 999 0x3042 ++ [0xD83D] := by
  unfold t8
  rw [show (1000 : Nat) = (List.replicate 999 (0x3042 : Nat)).length + 1 from by
      rw [List.length_replicate],
    List.take_append]
  rfl

theorem utf8Len_t8_take_1000 : utf8Len (t8.take 1000) = 3000 := by
  rw [t8_take_1000, utf8Len_append_clean _ _ (clean_replicate 0x3042 (by decide) 999),
    utf8Len_rep3042]
  decide

theorem t8_take_1001 :
    t8.take 1001 = List.replicate 999 0x3042 ++ [0xD83D, 0xDE00] := by
  unfold t8
  rw [show (1001 : Nat) = (List.replicate 999 (0x3042 : Nat)).length + 2 from by
      rw [List.length_replicate],
    List.take_append]
  rfl

theorem utf8Len_t8_take_1001 : utf8Len (t8.take 1001) = 3001 := by
  rw [t8_take_1001, utf8Len_append_clean _ _ (clean_replicate 0x3042 (by decide) 999),
    utf8Len_rep3042]
  decide

theorem t8_drop_1000 : t8.drop 1000 = [0xDE00, 0xD83D, 0xDE00] := by
  unfold t8
  rw [show (1000 : Nat) = (List.replicate 999 (0x3042 : Nat)).length + 1 from by
      rw [List.length_replicate],
    List.drop_append]
  decide

theorem utf8Len_t8 : utf8Len t8 = 3005 := by
  unfold t8
  rw [utf8Len_append_clean _ _ (clean_replicate 0x3042 (by decide) 999),
    utf8Len_rep3042]
  decide

theorem t8_take_full : t8.take 1003 = t8 := by
  rw [show (1003 : Nat) = t8.length from t8_length.symm, List.take_length]

theorem halveEnd_t8 : halveEnd t8 1003 = 501 := by
  unfold halveEnd
  rw [show (1003 : Nat) = 1002 + 1 from rfl, halveGo_succ_eq,
    if_pos ⟨by rw [show (1002 + 1 : Nat) = 1003 from rfl, t8_take_full, utf8Len_t8]; decide,
      by omega⟩,
    show ((1002 + 1) / 2 : Nat) = 501 from by norm_num,
    show (1002 : Nat) = 1001 + 1 from rfl, halveGo_succ_eq,
    if_neg (by
      rintro ⟨hh, -⟩
      rw [utf8Len_t8_take_le 501 (by omega)] at hh
      norm_num [MAX_CHUNK_SIZE] at hh)]

theorem extendEnd_t8 : extendEnd t8 501 = 1000 := by
  unfold extendEnd
  rw [t8_length, show (1003 - 501 : Nat) = 3 + 499 from by norm_num,
    extendGo_jump t8 499 3 501 (by
      intro k hk1 hk2
      constructor
      · rw [t8_length]; omega
      · by_cases hk : k + 1 ≤ 999
        · rw [utf8Len_t8_take_le (k + 1) hk]
          show 3 * (k + 1) ≤ 3000
          omega
        · rw [show k + 1 = 1000 from by omega, utf8Len_t8_take_1000]
          decide),
    show (501 + 499 : Nat) = 1000 from by norm_num,
    show (3 : Nat) = 2 + 1 from rfl, extendGo_succ_eq,
    if_neg (by
      rintro ⟨-, hh⟩
      rw [show (1000 + 1 : Nat) = 1001 from rfl, utf8Len_t8_take_1001] at hh
      norm_num [MAX_CHUNK_SIZE] at hh)]

theorem bisect_t8 :
    bisect t8 =
      [List.replicate 999 0x3042 ++ [0xD83D], [0xDE00, 0xD83D, 0xDE00]] := by
  unfold bisect
  rw [t8_length, show (1003 : Nat) = 1002 + 1 from rfl, bisectGo_succ_eq,
    if_neg t8_ne_nil, t8_length, halveEnd_t8, extendEnd_t8, t8_take_1000,
    t8_drop_1000,
    show (1002 : Nat) = 1001 + 1 from rfl, bisectGo_succ_eq,
    if_neg (by simp),
    show extendEnd [0xDE00, 0xD83D, 0xDE00]
      (halveEnd [0xDE00, 0xD83D, 0xDE00]
        ([0xDE00, 0xD83D, 0xDE00] : List Nat).length) = 3 from by decide,
    show ([0xDE00, 0xD83D, 0xDE00] : List Nat).take 3 = [0xDE00, 0xD83D, 0xDE00]
      from rfl,
    show ([0xDE00, 0xD83D, 0xDE00] : List Nat).drop 3 = [] from rfl,
    show bisectGo 1001 ([] : List Nat) = [] from rfl]

theorem t8_no_boundary : ∀ c ∈ t8, isSentenceBoundary c = false := by
  intro c hc
  unfold t8 at hc
  rcases List.mem_append.mp hc with h | h
  · rw [List.eq_of_mem_replicate h]; decide
  · unfold astralTail at h
    simp only [List.mem_cons, List.not_mem_nil, or_false] at h
    rcases h with h | h | h | h <;> subst h <;> decide

theorem sentenceSplit_t8 : sentenceSplit t8 = [t8] := by
  unfold sentenceSplit
  rw [if_neg t8_ne_nil, sentSplitGo_no_boundary t8 t8_no_boundary [],
    if_neg (by simp [t8_ne_nil])]
  simp

theorem split_t8 :
    splitTextIntoChunks t8 =
      [List.replicate 999 0x3042 ++ [0xD83D], [0xDE00, 0xD83D, 0xDE00]] := by
  unfold splitTextIntoChunks
  rw [if_neg (by rw [utf8Len_t8]; decide), sentenceSplit_t8,
    splitLoop_cons_bisect t8 [] (by rw [utf8Len_t8]; decide),
    show splitLoop ([] : List Nat) [] = [] from rfl, List.append_nil, bisect_t8]

/-- C8 counterexample: the bisection fallback slices at UTF-16 code-unit
positions, so on `t8` it cuts the first 😀 surrogate pair in half; the two
UTF-8 encodings of the two chunks (which contain U+FFFD replacement bytes) do not
concatenate to the encoding of the original sentence. -/
theorem astral_character_split :
    splitTextIntoChunks t8 =
      [List.replicate 999 0x3042 ++ [0xD83D], [0xDE00, 0xD83D, 0xDE00]] ∧
    ((splitTextIntoChunks t8).map utf8Bytes).flatten ≠ utf8Bytes t8 := by
  refine ⟨split_t8, ?_⟩
  rw [split_t8]
  intro heq
  have hlen := congrArg List.length heq
  simp only [List.map_cons, List.map_nil, List.flatten_cons, List.flatten_nil,
    List.append_nil, List.length_append,
    show ∀ l : List Nat, (utf8Bytes l).length = utf8Len l from fun _ => rfl]
    at hlen
  rw [utf8Len_append_clean _ _ (clean_replicate 0x3042 (by decide) 999),
    utf8Len_rep3042, utf8Len_t8,
    show utf8Len ([0xDE00, 0xD83D, 0xDE00] : List Nat) = 7 from by decide,
    show utf8Len ([0xD83D] : List Nat) = 3 from by decide] at hlen
  omega

/-- C8 amended: for inputs containing no surrogate code units (in particular
any well-formed text without characters beyond the BMP cut apart), each
chunk has as UTF-8 encoding exactly the corresponding contiguous byte range
of the UTF-8 encoding of the input: the encodings concatenate to the original
encoding. -/
theorem chunk_bytes_contiguous (t : List Nat)
    (h : ∀ x ∈ t, isSurrogate x = false) :
    ((splitTextIntoChunks t).map utf8Bytes).flatten = utf8Bytes t := by
  have hf := splitTextIntoChunks_flatten t
  rw [utf8Bytes_flatten_clean (splitTextIntoChunks t)
      (fun c hc x hx => h x (by rw [← hf]; exact List.mem_flatten.mpr ⟨c, hc, hx⟩)),
    hf]

/-- Witness for C8 at the two-character surrogate-free input "aあ". -/
theorem chunk_bytes_contiguous_witness :
    ((splitTextIntoChunks [0x61, 0x3042]).map utf8Bytes).flatten =
      utf8Bytes [0x61, 0x3042] :=
  chunk_bytes_contiguous [0x61, 0x3042] (by decide)

/-! ### Data model of the annotation result (interfaces SubWord/Word/...) -/

/-- `SubWord` from the source: `surface`, optional `furigana`, optional
`roman`. -/
structure SubWord where
  surface : String
  furigana : Option String
  roman : Option String

/-- `Word` from the source: `surface`, optional `furigana`, optional
`roman`, optional `subword` array. -/
structure Word where
  surface : String
  furigana : Option String
  roman : Option String
  subword : Option (List SubWord)

/-- `FuriganaResult` from the source. -/
structure FuriganaResult where
  word : List Word

/-- The `error` object of an `ApiResponse`. -/
structure ApiError where
  code : Int
  message : String

/-- `ApiResponse` from the source. -/
structure ApiResponse where
  id : String
  jsonrpc : String
  result : Option FuriganaResult
  error : Option ApiError

/-! ### The three output formatters -/

/-- The JavaScript condition `furigana && surface !== furigana`: the
furigana is present, non-empty (truthiness) and distinct from the surface. -/
def hasDistinctReading (surface : String) (furigana : Option String) : Bool :=
  match furigana with
  | some f => if f = "" then false else if surface = f then false else true
  | none => false

/-- One subword in `formatBracket`. -/
def subBracket (sw : SubWord) : String :=
  if hasDistinctReading sw.surface sw.furigana then
    sw.surface ++ "（" ++ sw.furigana.getD "" ++ "）"
  else sw.surface

/-- One word in `formatBracket`: an array-valued `subword` is truthy in
JavaScript even when empty, so the subword branch fires whenever the field
is present. -/
def wordBracket (w : Word) : String :=
  if hasDistinctReading w.surface w.furigana then
    w.surface ++ "（" ++ w.furigana.getD "" ++ "）"
  else
    match w.subword with
    | some sws => String.join (sws.map subBracket)
    | none => w.surface

/-- `formatBracket` from the source (`parts.join("")`). -/
def formatBracket (r : FuriganaResult) : String :=
  String.join (r.word.map wordBracket)

/-- One subword in `formatRuby`. -/
def subRuby (sw : SubWord) : String :=
  if hasDistinctReading sw.surface sw.furigana then
    "<ruby>" ++ sw.surface ++ "<rt>" ++ sw.furigana.getD "" ++ "</rt></ruby>"
  else sw.surface

/-- One word in `formatRuby`. -/
def wordRuby (w : Word) : String :=
  if hasDistinctReading w.surface w.furigana then
    "<ruby>" ++ w.surface ++ "<rt>" ++ w.furigana.getD "" ++ "</rt></ruby>"
  else
    match w.subword with
    | some sws => String.join (sws.map subRuby)
    | none => w.surface

/-- `formatRuby` from the source (`parts.join("")`). -/
def formatRuby (r : FuriganaResult) : String :=
  String.join (r.word.map wordRuby)

/-- One subword line in `formatWithRoman`. -/
def subRoman (sw : SubWord) : String :=
  "  - " ++ sw.surface ++ ": " ++ sw.furigana.getD "" ++ " ("
    ++ sw.roman.getD "" ++ ")"

/-- One word in `formatWithRoman`: the subword branch is checked first,
then `furigana || roman` truthiness. -/
def wordRoman (w : Word) : String :=
  match w.subword with
  | some sws => w.surface ++ ":\n" ++ String.intercalate "\n" (sws.map subRoman)
  | none =>
    if ¬(w.furigana.getD "" = "") ∨ ¬(w.roman.getD "" = "") then
      w.surface ++ ": " ++ w.furigana.getD "" ++ " (" ++ w.roman.getD "" ++ ")"
    else w.surface

/-- `formatWithRoman` from the source (`lines.join("\n")`). -/
def formatWithRoman (r : FuriganaResult) : String :=
  String.intercalate "\n" (r.word.map wordRoman)

/-- `formatResult` from the source: `switch` with cases "ruby" and "roman";
the "bracket" case and the `default` branch both render brackets. -/
def formatResult (r : FuriganaResult) (format : String) : String :=
  if format = "ruby" then formatRuby r
  else if format = "roman" then formatWithRoman r
  else formatBracket r

theorem join_singleton (s : String) : String.join [s] = s := by
  cases s; rfl

theorem intercalate_singleton (s : String) :
    String.intercalate "\n" [s] = s := by
  cases s; rfl

/-- C4 counterexample: a Word whose furigana equals its surface is not
always rendered as the bare surface: the roman style still emits
`surface: furigana (roman)`, and in the bracket style a Word carrying
subwords is rendered from its subwords, brackets included. -/
theorem furigana_suppression_violations :
    formatWithRoman ⟨[⟨"あ", some "あ", none, none⟩]⟩ = "あ: あ ()" ∧
    ¬ formatWithRoman ⟨[⟨"あ", some "あ", none, none⟩]⟩ = "あ" ∧
    formatBracket ⟨[⟨"漢", some "漢", none, some [⟨"か", some "x", none⟩]⟩]⟩ =
      "か（x）" ∧
    ¬ formatBracket ⟨[⟨"漢", some "漢", none, some [⟨"か", some "x", none⟩]⟩]⟩ =
      "漢" := by
  refine ⟨?_, ?_, ?_, ?_⟩ <;> decide

theorem hasDistinctReading_self (surf : String) :
    hasDistinctReading surf (some surf) = false := by
  unfold hasDistinctReading
  by_cases h : surf = "" <;> simp [h]

/-- C4 amended: in the bracket and ruby styles, a Word whose furigana is
present and equal to its surface and which has no subword list is rendered
as its bare surface, with no annotation markup. -/
theorem furigana_suppression_bracket_ruby (w : Word)
    (hf : w.furigana = some w.surface) (hs : w.subword = none) :
    wordBracket w = w.surface ∧ wordRuby w = w.surface ∧
    formatBracket ⟨[w]⟩ = w.surface ∧ formatRuby ⟨[w]⟩ = w.surface := by
  obtain ⟨surf, fur, rom, sub⟩ := w
  simp only at hf hs
  subst hf
  subst hs
  have hb : wordBracket ⟨surf, some surf, rom, none⟩ = surf := by
    unfold wordBracket
    rw [hasDistinctReading_self]
    simp
  have hr : wordRuby ⟨surf, some surf, rom, none⟩ = surf := by
    unfold wordRuby
    rw [hasDistinctReading_self]
    simp
  refine ⟨hb, hr, ?_, ?_⟩
  · unfold formatBracket
    rw [List.map_cons, List.map_nil, hb, join_singleton]
  · unfold formatRuby
    rw [List.map_cons, List.map_nil, hr, join_singleton]

/-- Witness for C4 at the kana-only Word あ/あ. -/
theorem furigana_suppression_witness :
    wordBracket ⟨"あ", some "あ", none, none⟩ = "あ" ∧
    wordRuby ⟨"あ", some "あ", none, none⟩ = "あ" ∧
    formatBracket ⟨[⟨"あ", some "あ", none, none⟩]⟩ = "あ" ∧
    formatRuby ⟨[⟨"あ", some "あ", none, none⟩]⟩ = "あ" :=
  furigana_suppression_bracket_ruby ⟨"あ", some "あ", none, none⟩ rfl rfl

/-! ### Annotation client and chunk orchestrator

The remote service is modelled by a call trace `oracle : Nat → FetchOutcome`
giving the transport outcome of the i-th `fetch` performed during one
invocation; `grade` only shapes the request body (`getFuriganaRequest`). -/

/-- The transport outcome of one `fetch` of the Yahoo endpoint. -/
inductive FetchOutcome where
  | httpErr (status : Nat) (statusText : String)
  | ok (resp : ApiResponse)

/-- The observable behavior of `getFurigana` given its fetch outcome: a
non-ok HTTP response throws `HTTP error: <status> <statusText>`, otherwise
the parsed body is returned. -/
def getFurigana (o : FetchOutcome) : Except String ApiResponse :=
  match o with
  | .httpErr status statusText =>
    .error ("HTTP error: " ++ toString status ++ " " ++ statusText)
  | .ok resp => .ok resp

/-- The `params` object of the JSON-RPC request body. -/
structure RequestParams where
  q : List Nat
  grade : Option Int

/-- The JSON-RPC request body. -/
structure RequestBody where
  id : String
  jsonrpc : String
  method : String
  params : RequestParams

/-- The request body built by `getFurigana`: `grade` is attached only when
`grade !== undefined && grade >= 1 && grade <= 8`. -/
def getFuriganaRequest (text : List Nat) (grade : Option Int) : RequestBody :=
  ⟨"1", "2.0", "jlp.furiganaservice.furigana",
    ⟨text,
      match grade with
      | some g => if 1 ≤ g ∧ g ≤ 8 then some g else none
      | none => none⟩⟩

/-- The `for (let i = 0; i < chunks.length; i++)` loop of
`processTextWithChunking`: `fuel` is the number of remaining iterations
(`n - i`), so the loop ends exactly at `i = n`.  The three `throw` sites are
the returned errors, in source order. -/
def processGo (oracle : Nat → FetchOutcome) (fmt : String) (n : Nat) :
    Nat → Nat → List String → Except String (List String)
  | 0, _, acc => .ok acc
  | fuel + 1, i, acc =>
    match getFurigana (oracle i) with
    | .error e => .error e
    | .ok resp =>
      match resp.error with
      | some e =>
        .error ("APIエラー (チャンク " ++ toString (i + 1) ++ "/" ++ toString n
          ++ "): " ++ e.message)
      | none =>
        match resp.result with
        | none =>
          .error ("結果が取得できませんでした (チャンク " ++ toString (i + 1) ++ "/"
            ++ toString n ++ ")")
        | some r =>
          processGo oracle fmt n fuel (i + 1) (acc ++ [formatResult r fmt])

/-- `processTextWithChunking` from the source: single-chunk texts use the
plain error messages, multi-chunk texts annotate failures with the chunk
position and join the formatted chunk outputs ("\n" for roman, "" else). -/
def processTextWithChunking (text : List Nat) (grade : Option Int)
    (fmt : String) (oracle : Nat → FetchOutcome) : Except String String :=
  if (splitTextIntoChunks text).length = 1 then
    match getFurigana (oracle 0) with
    | .error e => .error e
    | .ok resp =>
      match resp.error with
      | some e =>
        .error ("APIエラー: " ++ e.message ++ " (code: " ++ toString e.code ++ ")")
      | none =>
        match resp.result with
        | none => .error "結果が取得できませんでした"
        | some r => .ok (formatResult r fmt)
  else
    match processGo oracle fmt (splitTextIntoChunks text).length
        (splitTextIntoChunks text).length 0 [] with
    | .error e => .error e
    | .ok results =>
      .ok (if fmt = "roman" then String.intercalate "\n" results
           else String.join results)

/-! ### Tool layer (`gen_furigana`) -/

/-- The outcome of one tool invocation: a success payload, an error payload
with `isError: true`, or a rejection by the argument validation of the SDK. -/
inductive ToolResult where
  | ok (text : String)
  | error (text : String)
  | invalidParams

/-- The zod schema of `grade`, `z.number().min(1).max(8).optional()`, as a
predicate on the (integer) argument: absent or between 1 and 8. -/
def gradeSchemaAccepts : Option Int → Bool
  | none => true
  | some g => if 1 ≤ g ∧ g ≤ 8 then true else false

/-- The zod schema of `output_format`,
`z.enum(["bracket", "ruby", "roman"]).optional()`. -/
def outputFormatSchemaAccepts : Option String → Bool
  | none => true
  | some s => if s = "bracket" ∨ s = "ruby" ∨ s = "roman" then true else false

/-- JavaScript `output_format || "ruby"` from the handler. -/
def jsOrDefault (o : Option String) (dflt : String) : String :=
  match o with
  | none => dflt
  | some s => if s = "" then dflt else s

/-- The `gen_furigana` tool: the MCP SDK validates the arguments against the
zod schemas before the handler runs (a failing validation rejects the call);
the handler defaults the format to "ruby", runs the orchestrator, and wraps
a thrown error in an error response. -/
def genFuriganaTool (text : List Nat) (grade : Option Int)
    (output_format : Option String) (oracle : Nat → FetchOutcome) : ToolResult :=
  if gradeSchemaAccepts grade && outputFormatSchemaAccepts output_format then
    match processTextWithChunking text grade (jsOrDefault output_format "ruby")
        oracle with
    | .ok s => .ok s
    | .error e => .error ("エラーが発生しました: " ++ e)
  else .invalidParams

/-- A stub trace whose every response is empty-but-well-formed. -/
def stubOracle : Nat → FetchOutcome :=
  fun _ => .ok ⟨"1", "2.0", none, none⟩

/-- C9: when `output_format` is absent the handler substitutes "ruby" and
the output is rendered in the ruby-markup style, although the
own fallback branch of `formatResult` for an unrecognized format value is the bracket style. -/
theorem default_output_format_ruby (text : List Nat) (grade : Option Int)
    (oracle : Nat → FetchOutcome) (r : FuriganaResult) (s : String)
    (h1 : ¬ s = "ruby") (h2 : ¬ s = "roman") :
    genFuriganaTool text grade none oracle =
      genFuriganaTool text grade (some "ruby") oracle ∧
    formatResult r "ruby" = formatRuby r ∧
    formatResult r s = formatBracket r := by
  refine ⟨rfl, ?_, ?_⟩
  · simp [formatResult]
  · simp [formatResult, h1, h2]

/-- Witness for C9 at a concrete unrecognized format string "html". -/
theorem default_output_format_ruby_witness :
    genFuriganaTool [0x61] none none stubOracle =
      genFuriganaTool [0x61] none (some "ruby") stubOracle ∧
    formatResult ⟨[]⟩ "ruby" = formatRuby ⟨[]⟩ ∧
    formatResult ⟨[]⟩ "html" = formatBracket ⟨[]⟩ :=
  default_output_format_ruby [0x61] none stubOracle ⟨[]⟩ "html"
    (by decide) (by decide)

/-- C5 amended: the remote request carries `grade` exactly when it is
present and within [1,8]; but a present out-of-range grade is rejected by
the schema validation of the tool (the handler never runs) rather than being
processed as if absent. -/
theorem grade_gating (text : List Nat) (g : Int) (fmt : Option String)
    (oracle : Nat → FetchOutcome) :
    ((1 ≤ g ∧ g ≤ 8) → (getFuriganaRequest text (some g)).params.grade = some g) ∧
    (¬(1 ≤ g ∧ g ≤ 8) →
      (getFuriganaRequest text (some g)).params.grade = none ∧
      genFuriganaTool text (some g) fmt oracle = ToolResult.invalidParams) ∧
    (getFuriganaRequest text none).params.grade = none := by
  refine ⟨fun h => ?_, fun h => ⟨?_, ?_⟩, rfl⟩
  · show (if 1 ≤ g ∧ g ≤ 8 then some g else none) = some g
    rw [if_pos h]
  · show (if 1 ≤ g ∧ g ≤ 8 then some g else none) = none
    rw [if_neg h]
  · unfold genFuriganaTool
    rw [show gradeSchemaAccepts (some g) = false from by
        show (if 1 ≤ g ∧ g ≤ 8 then true else false) = false
        rw [if_neg h],
      Bool.false_and, if_neg (by simp)]

/-- Witness for C5 at grades 5 (in range) and 9 (out of range). -/
theorem grade_gating_witness :
    (getFuriganaRequest [] (some 5)).params.grade = some 5 ∧
    (getFuriganaRequest [] (some 9)).params.grade = none ∧
    genFuriganaTool [] (some 9) none stubOracle = ToolResult.invalidParams :=
  ⟨(grade_gating [] 5 none stubOracle).1 (by norm_num),
   ((grade_gating [] 9 none stubOracle).2.1 (by norm_num)).1,
   ((grade_gating [] 9 none stubOracle).2.1 (by norm_num)).2⟩

/-- A trace answering every call with one annotated word あ/か. -/
def wordOracle : Nat → FetchOutcome :=
  fun _ => .ok ⟨"1", "2.0", some ⟨[⟨"あ", some "か", none, none⟩]⟩, none⟩

/-- C5 counterexample: with grade 9 the request is not "processed with no
grade parameter": the schema validation rejects the call outright, while the
same call with grade absent succeeds. -/
theorem grade_out_of_range_rejected :
    genFuriganaTool [0x3042] (some 9) (some "ruby") wordOracle =
      ToolResult.invalidParams ∧
    genFuriganaTool [0x3042] none (some "ruby") wordOracle =
      ToolResult.ok "<ruby>あ<rt>か</rt></ruby>" := by
  exact ⟨rfl, rfl⟩

/-! ### Failure attribution in multi-chunk processing (claim C3) -/

/-- The i-th remote call succeeds: HTTP ok, no error object, and a result. -/
def okRes : FetchOutcome → Prop
  | .httpErr _ _ => False
  | .ok resp => resp.error = none ∧ ∃ r, resp.result = some r

theorem processGo_succ_eq (oracle : Nat → FetchOutcome) (fmt : String)
    (n f i : Nat) (acc : List String) :
    processGo oracle fmt n (f + 1) i acc =
      match getFurigana (oracle i) with
      | .error e => .error e
      | .ok resp =>
        match resp.error with
        | some e =>
          .error ("APIエラー (チャンク " ++ toString (i + 1) ++ "/" ++ toString n
            ++ "): " ++ e.message)
        | none =>
          match resp.result with
          | none =>
            .error ("結果が取得できませんでした (チャンク " ++ toString (i + 1) ++ "/"
              ++ toString n ++ ")")
          | some r =>
            processGo oracle fmt n f (i + 1) (acc ++ [formatResult r fmt]) := rfl

/-- If the first `d` calls after position `i` succeed and the call at
`i + d` fails, the loop returns the error message of that failure. -/
theorem processGo_fail (oracle : Nat → FetchOutcome) (fmt : String) (n : Nat) :
    ∀ d i acc,
      (∀ j, i ≤ j → j < i + d → okRes (oracle j)) → i + d < n →
      (∀ st sx, oracle (i + d) = .httpErr st sx →
        processGo oracle fmt n (n - i) i acc =
          .error ("HTTP error: " ++ toString st ++ " " ++ sx)) ∧
      (∀ resp e, oracle (i + d) = .ok resp → resp.error = some e →
        processGo oracle fmt n (n - i) i acc =
          .error ("APIエラー (チャンク " ++ toString (i + d + 1) ++ "/" ++ toString n
            ++ "): " ++ e.message)) ∧
      (∀ resp, oracle (i + d) = .ok resp → resp.error = none →
          resp.result = none →
        processGo oracle fmt n (n - i) i acc =
          .error ("結果が取得できませんでした (チャンク " ++ toString (i + d + 1) ++ "/"
            ++ toString n ++ ")")) := by
  intro d
  induction d with
  | zero =>
    intro i acc _ hlt
    obtain ⟨f, hf⟩ : ∃ f, n - i = f + 1 := ⟨n - i - 1, by omega⟩
    rw [hf]
    simp only [Nat.add_zero]
    refine ⟨fun st sx h => ?_, fun resp e h he => ?_, fun resp h he hr => ?_⟩
    · rw [processGo_succ_eq, h]
      rfl
    · rcases resp with ⟨rid, rjs, rres, rerr⟩
      have he' : rerr = some e := he
      subst he'
      rw [processGo_succ_eq, h]
      rfl
    · rcases resp with ⟨rid, rjs, rres, rerr⟩
      have he' : rerr = none := he
      have hr' : rres = none := hr
      subst he'
      subst hr'
      rw [processGo_succ_eq, h]
      rfl
  | succ d ih =>
    intro i acc hok hlt
    have h0 := hok i (Nat.le_refl i) (by omega)
    cases ho : oracle i with
    | httpErr st sx =>
      rw [ho] at h0
      simp [okRes] at h0
    | ok resp =>
      rw [ho] at h0
      have h0' : resp.error = none ∧ ∃ r, resp.result = some r := h0
      obtain ⟨he, r0, hr⟩ := h0'
      rcases resp with ⟨rid, rjs, rres, rerr⟩
      have he' : rerr = none := he
      have hr' : rres = some r0 := hr
      subst he'
      subst hr'
      have hstep : processGo oracle fmt n (n - i) i acc =
          processGo oracle fmt n (n - (i + 1)) (i + 1)
            (acc ++ [formatResult r0 fmt]) := by
        obtain ⟨f, hf⟩ : ∃ f, n - i = f + 1 := ⟨n - i - 1, by omega⟩
        rw [hf, processGo_succ_eq, ho,
          show f = n - (i + 1) from by omega]
        rfl
      rw [hstep]
      have hrec := ih (i + 1) (acc ++ [formatResult r0 fmt])
        (fun j hj1 hj2 => hok j (by omega) (by omega)) (by omega)
      have harith : i + 1 + d = i + (d + 1) := by omega
      rw [harith] at hrec
      exact hrec

/-- C3 amended: in multi-chunk processing, the first failing call determines
the returned error and nothing after it is reported: a service-reported
error or a missing result yields a message embedding the 1-based chunk
index, the total chunk count and the cause, while a transport/HTTP failure
propagates as the bare `HTTP error: <status> <statusText>` without chunk
context. -/
theorem chunk_failure_attribution (t : List Nat) (grade : Option Int)
    (fmt : String) (oracle : Nat → FetchOutcome) (i : Nat)
    (hn : 2 ≤ (splitTextIntoChunks t).length)
    (hi : i < (splitTextIntoChunks t).length)
    (hpre : ∀ j, j < i → okRes (oracle j)) :
    (∀ st sx, oracle i = .httpErr st sx →
      processTextWithChunking t grade fmt oracle =
        .error ("HTTP error: " ++ toString st ++ " " ++ sx)) ∧
    (∀ resp e, oracle i = .ok resp → resp.error = some e →
      processTextWithChunking t grade fmt oracle =
        .error ("APIエラー (チャンク " ++ toString (i + 1) ++ "/"
          ++ toString (splitTextIntoChunks t).length ++ "): " ++ e.message)) ∧
    (∀ resp, oracle i = .ok resp → resp.error = none → resp.result = none →
      processTextWithChunking t grade fmt oracle =
        .error ("結果が取得できませんでした (チャンク " ++ toString (i + 1) ++ "/"
          ++ toString (splitTextIntoChunks t).length ++ ")")) := by
  have hmain := processGo_fail oracle fmt (splitTextIntoChunks t).length i 0 []
    (fun j hj1 hj2 => hpre j (by omega)) (by omega)
  simp only [Nat.zero_add, Nat.sub_zero] at hmain
  unfold processTextWithChunking
  rw [if_neg (by omega)]
  refine ⟨fun st sx h => ?_, fun resp e h he => ?_, fun resp h he hr => ?_⟩
  · rw [hmain.1 st sx h]
  · rw [hmain.2.1 resp e h he]
  · rw [hmain.2.2 resp h he hr]

/-! ### A three-chunk text for the C3 scenario -/

/-- One 1503-byte sentence: 500 あ characters and a 。 terminator. -/
def u3 : List Nat := List.replicate 500 0x3042 ++ [0x3002]

/-- Three such sentences: 4509 bytes, split into exactly three chunks. -/
def t3 : List Nat := u3 ++ (u3 ++ u3)

theorem u3_ne_nil : u3 ≠ [] := by
  unfold u3
  simp

theorem u3_clean : ∀ x ∈ u3, isSurrogate x = false := by
  intro x hx
  unfold u3 at hx
  rcases List.mem_append.mp hx with h | h
  · exact clean_replicate 0x3042 (by decide) 500 x h
  · rw [List.mem_singleton] at h
    subst h
    decide

theorem utf8Len_u3 : utf8Len u3 = 1503 := by
  unfold u3
  rw [utf8Len_append_clean _ _ (clean_replicate 0x3042 (by decide) 500),
    utf8Len_rep3042]
  decide

theorem utf8Len_u3u3 : utf8Len (u3 ++ u3) = 3006 := by
  rw [utf8Len_append_clean _ _ u3_clean, utf8Len_u3]

theorem utf8Len_t3 : utf8Len t3 = 4509 := by
  unfold t3
  rw [utf8Len_append_clean _ _ u3_clean, utf8Len_u3, utf8Len_u3u3]

theorem t3_ne_nil : t3 ≠ [] := by
  unfold t3
  intro h
  rcases List.append_eq_nil.mp h with ⟨h1, -⟩
  exact u3_ne_nil h1

theorem t3_decomp :
    t3 = List.replicate 500 0x3042 ++ (0x3002 :: (u3 ++ u3)) := by
  show u3 ++ (u3 ++ u3) = _
  unfold u3
  rw [List.append_assoc, List.singleton_append]

theorem u3u3_decomp :
    u3 ++ u3 = List.replicate 500 0x3042 ++ (0x3002 :: u3) := by
  unfold u3
  rw [List.append_assoc, List.singleton_append]

theorem u3_decomp :
    u3 = List.replicate 500 0x3042 ++ (0x3002 :: ([] : List Nat)) := rfl

theorem sentenceSplit_t3 : sentenceSplit t3 = [u3, u3, u3] := by
  unfold sentenceSplit
  rw [if_neg t3_ne_nil, t3_decomp,
    sentSplitGo_unit _ (no_boundary_replicate 0x3042 (by decide) 500) 0x3002
      (by decide) _ [],
    u3u3_decomp,
    sentSplitGo_unit _ (no_boundary_replicate 0x3042 (by decide) 500) 0x3002
      (by decide) _ [],
    u3_decomp,
    sentSplitGo_unit _ (no_boundary_replicate 0x3042 (by decide) 500) 0x3002
      (by decide) _ []]
  show ([] ++ (List.replicate 500 0x3042 ++ [0x3002])) ::
      ([] ++ (List.replicate 500 0x3042 ++ [0x3002])) ::
      ([] ++ (List.replicate 500 0x3042 ++ [0x3002])) ::
      sentSplitGo [] [] = [u3, u3, u3]
  rw [List.nil_append]
  rfl

theorem split_t3 : splitTextIntoChunks t3 = [u3, u3, u3] := by
  unfold splitTextIntoChunks
  rw [if_neg (by rw [utf8Len_t3]; decide), sentenceSplit_t3,
    splitLoop_cons_fit [] u3 _ (by rw [List.nil_append, utf8Len_u3]; decide),
    List.nil_append,
    splitLoop_cons_push u3 u3 _ (by rw [utf8Len_u3u3]; decide) u3_ne_nil,
    splitLoop_cons_push u3 u3 _ (by rw [utf8Len_u3u3]; decide) u3_ne_nil,
    splitLoop_nil_eq, if_neg u3_ne_nil]

/-- A trace in which the 2nd call reports ServiceError code 1 message "x"
and every other call succeeds. -/
def oracle3 : Nat → FetchOutcome :=
  fun j =>
    if j = 1 then .ok ⟨"1", "2.0", none, some ⟨1, "x"⟩⟩
    else .ok ⟨"1", "2.0", some ⟨[]⟩, none⟩

/-- Witness for C3, the scenario given in the specification: the 2nd of 3 chunks fails with
`ServiceError{code=1, message="x"}` and the returned error embeds index 2,
total 3 and the cause message. -/
theorem chunk_failure_attribution_witness :
    processTextWithChunking t3 none "ruby" oracle3 =
      .error "APIエラー (チャンク 2/3): x" := by
  have h3 : (splitTextIntoChunks t3).length = 3 := by
    rw [split_t3]
    rfl
  have hpre : ∀ j, j < 1 → okRes (oracle3 j) := by
    intro j hj
    have hj0 : j = 0 := by omega
    subst hj0
    exact ⟨rfl, ⟨[]⟩, rfl⟩
  have h := chunk_failure_attribution t3 none "ruby" oracle3 1
    (by rw [h3]; norm_num) (by rw [h3]; norm_num) hpre
  have h2 := h.2.1 ⟨"1", "2.0", none, some ⟨1, "x"⟩⟩ ⟨1, "x"⟩ rfl rfl
  rw [h3] at h2
  exact h2

/-- A trace in which the 2nd call fails at the transport level with HTTP 500
and every other call succeeds. -/
def oracleT : Nat → FetchOutcome :=
  fun j =>
    if j = 1 then .httpErr 500 "Internal Server Error"
    else .ok ⟨"1", "2.0", some ⟨[]⟩, none⟩

/-- C3 counterexample: when the 2nd of 3 chunks fails at the transport/HTTP
level, the orchestrator re-raises the bare HTTP error: the returned message
contains neither the digit 2 (the chunk index) nor 3 (the total), so the
error does not embed the chunk position for this failure kind. -/
theorem transport_failure_lacks_chunk_index :
    processTextWithChunking t3 none "ruby" oracleT =
      .error "HTTP error: 500 Internal Server Error" ∧
    ("HTTP error: 500 Internal Server Error").data.all
      (fun c => !(c == '2' || c == '3')) = true := by
  constructor
  · have h3 : (splitTextIntoChunks t3).length = 3 := by
      rw [split_t3]
      rfl
    have hpre : ∀ j, 0 ≤ j → j < 0 + 1 → okRes (oracleT j) := by
      intro j _ hj
      have hj0 : j = 0 := by omega
      subst hj0
      exact ⟨rfl, ⟨[]⟩, rfl⟩
    have hmain := (processGo_fail oracleT "ruby" 3 1 0 [] hpre (by norm_num)).1
      500 "Internal Server Error" rfl
    simp only [Nat.sub_zero] at hmain
    unfold processTextWithChunking
    rw [if_neg (by rw [h3]; norm_num), h3, hmain]
    rfl
  · decide

end YahooRuby
